import Mathlib

/-!
Verification of the SerializedTransferProtocol packet engine
(STP_Controller: cobs_processor.h, crc_processor.h,
serialized_transfer_protocol.h).

Byte buffers are modelled as `List Nat` whose entries are the uint8_t
cells of the corresponding C arrays; machine-integer truncation is made
explicit with `% 256` (uint8_t stores) and `% 65536` (size_t to uint16_t
casts).  The target platform is a 32-bit ARM microcontroller (Teensy
4.1, the board the library is tested on), so `uint16_t` operands of
arithmetic promote to a 32-bit signed `int`; guards that subtract two
`uint16_t` values are therefore modelled with `Int` subtraction.
-/

/-! ## Status byte-codes (stp_shared_assets.h) -/

def kEncoderTooSmallPayloadSize : Nat := 12
def kEncoderTooLargePayloadSize : Nat := 13
def kEncoderPacketLargerThanBuffer : Nat := 14
def kPayloadAlreadyEncoded : Nat := 15
def kPayloadEncoded : Nat := 16
def kDecoderTooSmallPacketSize : Nat := 17
def kDecoderTooLargePacketSize : Nat := 18
def kDecoderPacketLargerThanBuffer : Nat := 19
def kDecoderUnableToFindDelimiter : Nat := 20
def kDecoderDelimiterFoundTooEarly : Nat := 21
def kPacketAlreadyDecoded : Nat := 22
def kPayloadDecoded : Nat := 23
def kCalculateCRCChecksumBufferTooSmall : Nat := 52
def kCRCChecksumCalculated : Nat := 53
def kAddCRCChecksumBufferTooSmall : Nat := 54
def kCRCChecksumAddedToBuffer : Nat := 55
def kPacketConstructed : Nat := 102
def kPacketSent : Nat := 103
def kPacketStartByteNotFoundError : Nat := 105
def kPacketOutOfBufferSpaceError : Nat := 107
def kPacketTimeoutError : Nat := 108
def kPostambleTimeoutError : Nat := 109
def kPacketParsed : Nat := 110
def kCRCCheckFailed : Nat := 111
def kPacketValidated : Nat := 112
def kPacketReceived : Nat := 113
def kWritePayloadTooSmallError : Nat := 114
def kBytesWrittenToBuffer : Nat := 115
def kNoBytesToParseFromBuffer : Nat := 118

/-! ## COBSProcessor (cobs_processor.h) -/

/-- Result of a COBSProcessor method: the (possibly modified) buffer, the
uint16_t return value, and the `cobs_status` byte-code. -/
structure COBSResult where
  buffer : List Nat
  ret : Nat
  status : Nat
deriving DecidableEq

/-- The reverse scan of `COBSProcessor::EncodePayload`
(`for (uint8_t i = payload_end_index; i >= payload_start_index; i--)`).
The first argument of the recursion is the loop counter `i`; the call
processes indices `i, i-1, ..., 1`.  `pe` is `payload_end_index` and
`last` is `last_delimiter_index`.  Stores into the uint8_t buffer are
truncated with `% 256` (in reachable calls the stored distances are
at most 255). -/
def encodeLoop (D pe : Nat) : Nat → List Nat → Nat → List Nat × Nat
  | 0, buf, last => (buf, last)
  | i + 1, buf, last =>
    if buf.getD (i + 1) 0 = D then
      let v := if last = 0 then pe + 1 - (i + 1) else last - (i + 1)
      encodeLoop D pe i (buf.set (i + 1) (v % 256)) (i + 1)
    else
      encodeLoop D pe i buf last

/-- `COBSProcessor::EncodePayload(payload_buffer, payload_size,
delimiter_byte_value)`.  `P` is the uint8_t `payload_size`, `D` the
uint8_t delimiter.  The buffer-size guard casts `buffer_size` (a
`size_t` template parameter) to uint16_t, hence the `% 65536`. -/
def EncodePayload (buf : List Nat) (P D : Nat) : COBSResult :=
  if P < 1 then ⟨buf, 0, kEncoderTooSmallPayloadSize⟩
  else if 254 < P then ⟨buf, 0, kEncoderTooLargePayloadSize⟩
  else if buf.length % 65536 < P + 2 then ⟨buf, 0, kEncoderPacketLargerThanBuffer⟩
  else if buf.getD 0 0 ≠ 0 then ⟨buf, 0, kPayloadAlreadyEncoded⟩
  else
    let buf1 := buf.set (P + 1) D
    let r := encodeLoop D P P buf1 0
    let buf2 := if r.2 ≠ 0 then r.1.set 0 r.2 else r.1.set 0 (P + 1)
    ⟨buf2, P + 2, kPayloadEncoded⟩

/-- The while loop of `COBSProcessor::DecodePayload`
(`while ((read_index + next_index) < packet_size)`), written with an
explicit fuel argument.  `r` is `read_index`, `n` is `next_index`.
`DecodePayload` supplies fuel `2 * packet_size + 2`, which the loop can
never exhaust: every iteration either advances `read_index` by at least
one (at most `packet_size` times) or has `next_index = 0`, in which case
the previous iteration stored the delimiter at `read_index` and the
present iteration terminates. -/
def decodeLoop (D L : Nat) : Nat → List Nat → Nat → Nat → COBSResult
  | 0, buf, _, _ => ⟨buf, 0, kDecoderUnableToFindDelimiter⟩
  | fuel + 1, buf, r, n =>
    if r + n < L then
      if buf.getD (r + n) 0 = D then
        if r + n = L - 1 then ⟨buf, L - 2, kPayloadDecoded⟩
        else ⟨buf, 0, kDecoderDelimiterFoundTooEarly⟩
      else
        decodeLoop D L fuel (buf.set (r + n) D) (r + n) (buf.getD (r + n) 0)
    else ⟨buf, 0, kDecoderUnableToFindDelimiter⟩

/-- `COBSProcessor::DecodePayload(packet_buffer, packet_size,
delimiter_byte_value)`.  `L` is the uint16_t `packet_size`.  Note that
the overhead byte is read into `next_index` and then reset to 0 before
the decoding loop runs. -/
def DecodePayload (buf : List Nat) (L D : Nat) : COBSResult :=
  if L < 3 then ⟨buf, 0, kDecoderTooSmallPacketSize⟩
  else if 256 < L then ⟨buf, 0, kDecoderTooLargePacketSize⟩
  else if buf.length % 65536 < L then ⟨buf, 0, kDecoderPacketLargerThanBuffer⟩
  else if buf.getD 0 0 = 0 then ⟨buf, 0, kPacketAlreadyDecoded⟩
  else
    decodeLoop D L (2 * L + 2) (buf.set 0 0) 0 (buf.getD 0 0)

/-! ## The COBS delimiter chain (specification-side helper functions)

For the round-trip proof (delimiter 0) we characterise the encoded
buffer by the position of the first delimiter-valued payload byte at or
after a given index. -/

/-- Helper recursion for `firstZeroFrom`; `c` counts the remaining
candidate indices, so calls maintain `j + c = P + 1`. -/
def fzGo (p : List Nat) (P : Nat) : Nat → Nat → Nat
  | 0, _ => P + 1
  | c + 1, j => if p.getD j 0 = 0 then j else fzGo p P c (j + 1)

/-- The smallest index `k` with `j ≤ k ≤ P` and `p.getD k 0 = 0`, or
`P + 1` when no such index exists. -/
def firstZeroFrom (p : List Nat) (P j : Nat) : Nat :=
  fzGo p P (P + 1 - j) j

/-! ## CRCProcessor (crc_processor.h)

The CRC register is a `PolynomialType` of `w` bytes (`w` = 1, 2 or 4);
its value is kept as a `Nat` together with explicit `% 2 ^ (8 * w)`
truncations wherever the C code truncates. -/

/-- One iteration of the bit loop in `CRCProcessor::GenerateCRCTable`:
shift left, XOR with the polynomial when the most significant bit was
set, truncate to the register width. -/
def crcRound (w poly c : Nat) : Nat :=
  if c &&& 2 ^ (8 * w - 1) ≠ 0 then ((c <<< 1) ^^^ poly) % 2 ^ (8 * w)
  else (c <<< 1) % 2 ^ (8 * w)

/-- Entry `b` of the lookup table built by
`CRCProcessor::GenerateCRCTable`: the byte value aligned to the top of
the register, then eight rounds of `crcRound`. -/
def crcTableEntry (w poly b : Nat) : Nat :=
  let c0 := if 8 < 8 * w then (b % 256) <<< (8 * w - 8) else b % 256
  crcRound w poly (crcRound w poly (crcRound w poly (crcRound w poly
    (crcRound w poly (crcRound w poly (crcRound w poly (crcRound w poly c0)))))))

/-- One iteration of the byte loop in
`CRCProcessor::CalculatePacketCRCChecksum`: index the table with the top
register byte XOR the data byte, shift the register and XOR in the
table entry. -/
def crcUpdate (w poly c b : Nat) : Nat :=
  ((c <<< 8) % 2 ^ (8 * w)) ^^^ crcTableEntry w poly (((c >>> (8 * (w - 1))) ^^^ b) % 256)

/-- The byte loop of `CalculatePacketCRCChecksum` over a list of data
bytes. -/
def crcFeed (w poly c : Nat) (bytes : List Nat) : Nat :=
  bytes.foldl (crcUpdate w poly) c

/-- Result of `CalculatePacketCRCChecksum`: returned checksum and the
`crc_status` byte-code. -/
structure CRCCalcResult where
  value : Nat
  status : Nat
deriving DecidableEq

/-- `CRCProcessor::CalculatePacketCRCChecksum(buffer, start_index,
packet_size)`.  The guard subtracts two uint16_t values; on the 32-bit
target they promote to `int`, so the subtraction is signed and is
modelled over `Int`. -/
def CalculatePacketCRCChecksum (w poly initVal fxor : Nat) (buffer : List Nat)
    (start L : Nat) : CRCCalcResult :=
  if (buffer.length % 65536 : Int) - (start : Int) < (L : Int) then
    ⟨0, kCalculateCRCChecksumBufferTooSmall⟩
  else
    ⟨crcFeed w poly initVal ((List.range L).map fun i => buffer.getD (start + i) 0) ^^^ fxor,
      kCRCChecksumCalculated⟩

/-- Writes the elements of `src` into `buf` starting at `pos`
(a `memcpy` / byte-store loop). -/
def writeBytes : List Nat → Nat → List Nat → List Nat
  | buf, _, [] => buf
  | buf, pos, b :: rest => writeBytes (buf.set pos b) (pos + 1) rest

/-- The bytes of the `w`-byte CRC value `c`, most significant first:
byte `i` is `(c >> (8 * (w - 1 - i))) & 0xFF`. -/
def msbBytes (w c : Nat) : List Nat :=
  (List.range w).map fun i => (c >>> (8 * (w - 1 - i))) % 256

/-- Result of `AddCRCChecksumToBuffer`: buffer, uint16_t return value
and `crc_status`. -/
structure CRCAddResult where
  buffer : List Nat
  ret : Nat
  status : Nat
deriving DecidableEq

/-- `CRCProcessor::AddCRCChecksumToBuffer(buffer, start_index,
crc_checksum)`: writes the `w` checksum bytes most-significant first at
`start_index`.  The guard promotes to signed `int` as in
`CalculatePacketCRCChecksum`. -/
def AddCRCChecksumToBuffer (w : Nat) (buffer : List Nat) (start c : Nat) : CRCAddResult :=
  if (w : Int) > (buffer.length % 65536 : Int) - (start : Int) then
    ⟨buffer, 0, kAddCRCChecksumBufferTooSmall⟩
  else
    ⟨writeBytes buffer start (msbBytes w c), start + w, kCRCChecksumAddedToBuffer⟩

/-! ## SerializedTransferProtocol (serialized_transfer_protocol.h)

The Stream port is modelled as a list of pending incoming bytes plus a
list of transmitted bytes.  A read pops the head; `available()` is
non-emptiness.  The per-byte reception timeout fires exactly when the
incoming list is exhausted (no further bytes ever arrive within
`timeout_us` in a fixed stream). -/

/-- Construction-time configuration of the class: CRC parameters,
start/delimiter bytes, the start-byte error policy and the two maximum
payload sizes (template parameters). -/
structure STPConfig where
  w : Nat
  poly : Nat
  initVal : Nat
  fxor : Nat
  startByte : Nat
  delimiterByte : Nat
  allowStartByteErrors : Bool
  kMaxTx : Nat
  kMaxRx : Nat
deriving DecidableEq

/-- Mutable state of a `SerializedTransferProtocol` instance together
with the stream: pending input bytes, transmitted bytes, the two
staging buffers, the two byte trackers and `transfer_status`. -/
structure STPState where
  inStream : List Nat
  outStream : List Nat
  txBuffer : List Nat
  rxBuffer : List Nat
  txTracker : Nat
  rxTracker : Nat
  status : Nat
deriving DecidableEq

/-- Result of `WriteData`: transmission buffer, tracker, uint16_t
return value and `transfer_status`. -/
structure WriteResult where
  buffer : List Nat
  tracker : Nat
  ret : Nat
  status : Nat
deriving DecidableEq

/-- `SerializedTransferProtocol::WriteData(object, start_index,
provided_bytes)` with the default `provided_bytes = sizeof(ObjectType)`:
`object` is the byte image of the written object.  `local_start_index`
and `required_size` are uint16_t variables, hence the `% 65536` at each
store; the returned `required_size - 1` is computed in `int` and then
truncated back to uint16_t, modelled as `(required + 65535) % 65536`. -/
def WriteData (kMaxTx : Nat) (buffer : List Nat) (tracker : Nat)
    (object : List Nat) (start : Nat) : WriteResult :=
  let localStart := (start + 1) % 65536
  let required := (localStart + object.length) % 65536
  if kMaxTx + 1 < required then ⟨buffer, tracker, 0, kWritePayloadTooSmallError⟩
  else
    ⟨writeBytes buffer localStart object,
      max tracker ((required + 65535) % 65536),
      (required + 65535) % 65536,
      kBytesWrittenToBuffer⟩

/-- `SerializedTransferProtocol::ConstructPacket()`: COBS-encode the
payload (the tracker is truncated to the uint8_t parameter), checksum
the packet, append the checksum.  Returns the new state and the
combined packet-plus-checksum size (0 on failure). -/
def ConstructPacket (cfg : STPConfig) (st : STPState) : STPState × Nat :=
  let e := EncodePayload st.txBuffer (st.txTracker % 256) cfg.delimiterByte
  if e.ret = 0 then ({ st with txBuffer := e.buffer, status := e.status }, 0)
  else
    let c := CalculatePacketCRCChecksum cfg.w cfg.poly cfg.initVal cfg.fxor e.buffer 0 e.ret
    if c.status ≠ kCRCChecksumCalculated then
      ({ st with txBuffer := e.buffer, status := c.status }, 0)
    else
      let a := AddCRCChecksumToBuffer cfg.w e.buffer e.ret c.value
      if a.ret = 0 then ({ st with txBuffer := a.buffer, status := a.status }, 0)
      else ({ st with txBuffer := a.buffer, status := kPacketConstructed }, a.ret)

/-- `SerializedTransferProtocol::SendData()`: construct the packet; on
success write the two-byte preamble and the packet-plus-checksum bytes
to the stream, set `kPacketSent`, reset the transmission buffer
(overhead byte to 0, tracker to 0) and return true. -/
def SendData (cfg : STPConfig) (st : STPState) : Bool × STPState :=
  let cp := ConstructPacket cfg st
  if cp.2 ≠ 0 then
    let sent := { cp.1 with
      outStream := cp.1.outStream ++ [cfg.startByte, cp.1.txTracker % 256] ++
        cp.1.txBuffer.take cp.2,
      status := kPacketSent }
    (true, { sent with txBuffer := sent.txBuffer.set 0 0, txTracker := 0 })
  else (false, cp.1)

/-- The start-byte scan of `ParsePacket` (`while (_port.available())`):
consume bytes until one equals `start_byte`; `none` when the stream
drains first. -/
def scanStart (startB : Nat) : List Nat → Option (List Nat)
  | [] => none
  | b :: rest => if b = startB then some rest else scanStart startB rest

/-- Result of the packet-scan loop of `ParsePacket`: remaining stream,
reception buffer, `bytes_read`, and whether the delimiter was found. -/
structure PacketScanResult where
  stream : List Nat
  buffer : List Nat
  bytesRead : Nat
  found : Bool
deriving DecidableEq

/-- The packet-scan loop of `ParsePacket`
(`while (timeout_timer < kTimeout && bytes_read < kMaximumRxBufferSize -
kPostambleSize)`): each available byte is stored at `buffer[bytes_read]`
(index 0, the overhead position, included) and compared against the
delimiter; the loop exits on delimiter, buffer-capacity exhaustion, or
stream exhaustion (timeout). -/
def packetLoop (delim cap : Nat) (stream buf : List Nat) (n : Nat) : PacketScanResult :=
  if cap ≤ n then ⟨stream, buf, n, false⟩
  else
    match stream with
    | [] => ⟨[], buf, n, false⟩
    | b :: rest =>
      if b = delim then ⟨rest, buf.set n b, n + 1, true⟩
      else packetLoop delim cap rest (buf.set n b) (n + 1)

/-- The postamble loop of `ParsePacket`: read exactly `w` more bytes
into the buffer at `pos, pos+1, ...`; the Bool is false when the stream
drains first (postamble timeout). -/
def readPostamble : Nat → List Nat → List Nat → Nat → List Nat × List Nat × Bool
  | 0, stream, buf, _ => (stream, buf, true)
  | _ + 1, [], buf, _ => ([], buf, false)
  | w + 1, b :: rest, buf, pos => readPostamble w rest (buf.set pos b) (pos + 1)

/-- Result of `ParsePacket`: remaining stream, reception buffer,
uint16_t return value (packet size, 0 on failure) and
`transfer_status`. -/
structure ParseResult where
  stream : List Nat
  buffer : List Nat
  ret : Nat
  status : Nat
deriving DecidableEq

/-- `SerializedTransferProtocol::ParsePacket()`: scan for the start
byte, read packet bytes until the delimiter, then read the
`kPostambleSize = w` checksum bytes. -/
def ParsePacket (cfg : STPConfig) (stream buf : List Nat) : ParseResult :=
  match scanStart cfg.startByte stream with
  | none =>
    if cfg.allowStartByteErrors then ⟨[], buf, 0, kPacketStartByteNotFoundError⟩
    else ⟨[], buf, 0, kNoBytesToParseFromBuffer⟩
  | some rest =>
    let cap := cfg.kMaxRx + 2 + cfg.w - cfg.w
    let pl := packetLoop cfg.delimiterByte cap rest buf 0
    if pl.found then
      let rp := readPostamble cfg.w pl.stream pl.buffer pl.bytesRead
      if rp.2.2 then ⟨rp.1, rp.2.1, pl.bytesRead, kPacketParsed⟩
      else ⟨rp.1, rp.2.1, 0, kPostambleTimeoutError⟩
    else if cap ≤ pl.bytesRead then ⟨pl.stream, pl.buffer, 0, kPacketOutOfBufferSpaceError⟩
    else ⟨pl.stream, pl.buffer, 0, kPacketTimeoutError⟩

/-- `SerializedTransferProtocol::ValidatePacket(packet_size)`: zero-sum
CRC check over packet plus appended checksum, then in-place COBS
decoding. -/
def ValidatePacket (cfg : STPConfig) (buf : List Nat) (packetSize : Nat) : COBSResult :=
  let c := CalculatePacketCRCChecksum cfg.w cfg.poly cfg.initVal cfg.fxor buf 0
    (packetSize + cfg.w)
  if c.status ≠ kCRCChecksumCalculated then ⟨buf, 0, c.status⟩
  else if c.value ≠ 0 then ⟨buf, 0, kCRCCheckFailed⟩
  else
    let d := DecodePayload buf packetSize cfg.delimiterByte
    if d.ret = 0 then ⟨d.buffer, 0, d.status⟩
    else ⟨d.buffer, d.ret, kPacketValidated⟩

/-- `SerializedTransferProtocol::ReceiveData()`: reset the reception
buffer (overhead byte and tracker to 0), parse a packet, validate and
decode it; only a fully successful run stores the payload size in the
tracker. -/
def ReceiveData (cfg : STPConfig) (st : STPState) : Bool × STPState :=
  let st0 := { st with rxBuffer := st.rxBuffer.set 0 0, rxTracker := 0 }
  let pr := ParsePacket cfg st0.inStream st0.rxBuffer
  let st1 := { st0 with inStream := pr.stream, rxBuffer := pr.buffer, status := pr.status }
  if pr.ret = 0 then (false, st1)
  else
    let vr := ValidatePacket cfg st1.rxBuffer pr.ret
    let st2 := { st1 with rxBuffer := vr.buffer, status := vr.status }
    if vr.ret = 0 then (false, st2)
    else (true, { st2 with rxTracker := vr.ret, status := kPacketReceived })

/-! ## List helper lemmas -/

theorem getD_set_self (l : List Nat) (i v : Nat) (h : i < l.length) :
    (l.set i v).getD i 0 = v := by
  induction l generalizing i with
  | nil => simp at h
  | cons a t ih =>
    cases i with
    | zero => simp [List.getD]
    | succ n => simpa [List.getD] using ih n (by simpa using h)

theorem getD_set_ne (l : List Nat) (i j v : Nat) (h : i ≠ j) :
    (l.set i v).getD j 0 = l.getD j 0 := by
  induction l generalizing i j with
  | nil => simp
  | cons a t ih =>
    cases i with
    | zero =>
      cases j with
      | zero => exact absurd rfl h
      | succ m => simp [List.getD]
    | succ n =>
      cases j with
      | zero => simp [List.getD]
      | succ m => simpa [List.getD] using ih n m (by omega)



theorem fzGo_ge (p : List Nat) (P : Nat) :
    ∀ c j, j + c = P + 1 → j ≤ fzGo p P c j ∧ fzGo p P c j ≤ P + 1 := by
  intro c
  induction c with
  | zero => intro j h; simp only [fzGo]; omega
  | succ c ih =>
    intro j h
    simp only [fzGo]
    by_cases hz : p.getD j 0 = 0
    · rw [if_pos hz]; omega
    · rw [if_neg hz]
      have := ih (j + 1) (by omega)
      omega

theorem fzGo_zero (p : List Nat) (P : Nat) :
    ∀ c j, j + c = P + 1 → fzGo p P c j ≤ P → p.getD (fzGo p P c j) 0 = 0 := by
  intro c
  induction c with
  | zero => intro j h hle; simp only [fzGo] at hle; omega
  | succ c ih =>
    intro j h hle
    simp only [fzGo] at hle ⊢
    by_cases hz : p.getD j 0 = 0
    · rw [if_pos hz]; exact hz
    · rw [if_neg hz]
      rw [if_neg hz] at hle
      exact ih (j + 1) (by omega) hle

theorem fzGo_ne_zero_before (p : List Nat) (P : Nat) :
    ∀ c j k, j + c = P + 1 → j ≤ k → k < fzGo p P c j → p.getD k 0 ≠ 0 := by
  intro c
  induction c with
  | zero => intro j k h hjk hk; simp only [fzGo] at hk; omega
  | succ c ih =>
    intro j k h hjk hk
    simp only [fzGo] at hk
    by_cases hz : p.getD j 0 = 0
    · rw [if_pos hz] at hk; omega
    · rw [if_neg hz] at hk
      rcases Nat.eq_or_lt_of_le hjk with heq | hlt
      · subst heq; exact hz
      · exact ih (j + 1) k (by omega) hlt hk

theorem firstZeroFrom_ge (p : List Nat) (P j : Nat) (h : j ≤ P + 1) :
    j ≤ firstZeroFrom p P j :=
  (fzGo_ge p P (P + 1 - j) j (by omega)).1

theorem firstZeroFrom_le (p : List Nat) (P j : Nat) (h : j ≤ P + 1) :
    firstZeroFrom p P j ≤ P + 1 :=
  (fzGo_ge p P (P + 1 - j) j (by omega)).2

theorem firstZeroFrom_zero (p : List Nat) (P j : Nat) (h : j ≤ P + 1)
    (hle : firstZeroFrom p P j ≤ P) : p.getD (firstZeroFrom p P j) 0 = 0 :=
  fzGo_zero p P (P + 1 - j) j (by omega) hle

theorem firstZeroFrom_ne_zero_before (p : List Nat) (P j k : Nat) (h : j ≤ P + 1)
    (hjk : j ≤ k) (hk : k < firstZeroFrom p P j) : p.getD k 0 ≠ 0 :=
  fzGo_ne_zero_before p P (P + 1 - j) j k (by omega) hjk hk

theorem firstZeroFrom_eq_self (p : List Nat) (P j : Nat) (h : j ≤ P)
    (hz : p.getD j 0 = 0) : firstZeroFrom p P j = j := by
  have hc : P + 1 - j = (P - j) + 1 := by omega
  rw [firstZeroFrom, hc]
  simp only [fzGo]
  rw [if_pos hz]

theorem firstZeroFrom_eq_succ (p : List Nat) (P j : Nat) (h : j ≤ P)
    (hz : p.getD j 0 ≠ 0) : firstZeroFrom p P j = firstZeroFrom p P (j + 1) := by
  have hc : P + 1 - j = (P - j) + 1 := by omega
  have hc2 : P + 1 - (j + 1) = P - j := by omega
  rw [firstZeroFrom, hc, firstZeroFrom, hc2]
  simp only [fzGo]
  rw [if_neg hz]

theorem firstZeroFrom_top (p : List Nat) (P j : Nat) (h : P < j) :
    firstZeroFrom p P j = P + 1 := by
  have hc : P + 1 - j = 0 := by omega
  rw [firstZeroFrom, hc]
  rfl

/-! ## Characterisation of the encoded buffer (delimiter 0)

`q` plays the role of the buffer right after `EncodePayload` appends the
trailing delimiter (`buf.set (P+1) 0`).  The invariant threads through
`encodeLoop`: indices above the loop counter are already encoded into
the chain of distances to the next delimiter-valued byte, indices at or
below it are untouched, and `last_delimiter_index` records the first
zero position above the counter (or 0 when there is none). -/

theorem encodeLoop_chain (q : List Nat) (P : Nat) (hP : P ≤ 254) (hq : P + 2 ≤ q.length) :
    ∀ i cur last, i ≤ P → cur.length = q.length →
    (∀ j, j ≤ i → cur.getD j 0 = q.getD j 0) →
    (∀ j, i < j → j ≤ P → q.getD j 0 = 0 →
      cur.getD j 0 = firstZeroFrom q P (j + 1) - j) →
    (∀ j, i < j → j ≤ P → q.getD j 0 ≠ 0 → cur.getD j 0 = q.getD j 0) →
    (∀ j, P < j → cur.getD j 0 = q.getD j 0) →
    last = (if firstZeroFrom q P (i + 1) ≤ P then firstZeroFrom q P (i + 1) else 0) →
    (encodeLoop 0 P i cur last).1.length = q.length ∧
    (encodeLoop 0 P i cur last).1.getD 0 0 = q.getD 0 0 ∧
    (∀ j, 1 ≤ j → j ≤ P → q.getD j 0 = 0 →
      (encodeLoop 0 P i cur last).1.getD j 0 = firstZeroFrom q P (j + 1) - j) ∧
    (∀ j, 1 ≤ j → j ≤ P → q.getD j 0 ≠ 0 →
      (encodeLoop 0 P i cur last).1.getD j 0 = q.getD j 0) ∧
    (∀ j, P < j → (encodeLoop 0 P i cur last).1.getD j 0 = q.getD j 0) ∧
    (encodeLoop 0 P i cur last).2 =
      (if firstZeroFrom q P 1 ≤ P then firstZeroFrom q P 1 else 0) := by
  intro i
  induction i with
  | zero =>
    intro cur last _ hlen hle hzero hnz hgt hlast
    simp only [encodeLoop]
    refine ⟨hlen, hle 0 (Nat.le_refl 0), ?_, ?_, hgt, by simpa using hlast⟩
    · intro j h1 h2 hz; exact hzero j (by omega) h2 hz
    · intro j h1 h2 hz; exact hnz j (by omega) h2 hz
  | succ i ih =>
    intro cur last hi hlen hle hzero hnz hgt hlast
    simp only [encodeLoop]
    have hcur : cur.getD (i + 1) 0 = q.getD (i + 1) 0 := hle (i + 1) (Nat.le_refl _)
    by_cases hz : q.getD (i + 1) 0 = 0
    · rw [hcur, if_pos hz]
      have hF1 : i + 1 + 1 ≤ P + 1 := by omega
      have hge := firstZeroFrom_ge q P (i + 1 + 1) hF1
      have hle2 := firstZeroFrom_le q P (i + 1 + 1) hF1
      have hv : (if last = 0 then P + 1 - (i + 1) else last - (i + 1)) % 256
          = firstZeroFrom q P (i + 1 + 1) - (i + 1) := by
        rw [hlast]; split_ifs <;> omega
      rw [hv]
      refine ih (cur.set (i + 1) (firstZeroFrom q P (i + 1 + 1) - (i + 1))) (i + 1)
        (by omega) (by rw [List.length_set]; exact hlen) ?_ ?_ ?_ ?_ ?_
      · intro j hj
        rw [getD_set_ne _ _ _ _ (by omega)]
        exact hle j (by omega)
      · intro j h1 h2 hzz
        by_cases hj : j = i + 1
        · subst hj
          rw [getD_set_self _ _ _ (by rw [hlen]; omega)]
        · rw [getD_set_ne _ _ _ _ (by omega)]
          exact hzero j (by omega) h2 hzz
      · intro j h1 h2 hzz
        by_cases hj : j = i + 1
        · subst hj; exact absurd hz hzz
        · rw [getD_set_ne _ _ _ _ (by omega)]
          exact hnz j (by omega) h2 hzz
      · intro j hj
        rw [getD_set_ne _ _ _ _ (by omega)]
        exact hgt j hj
      · rw [firstZeroFrom_eq_self q P (i + 1) hi hz, if_pos hi]
    · rw [hcur, if_neg hz]
      refine ih cur last (by omega) hlen ?_ ?_ ?_ hgt ?_
      · intro j hj; exact hle j (by omega)
      · intro j h1 h2 hzz
        by_cases hj : j = i + 1
        · subst hj; exact absurd hzz hz
        · exact hzero j (by omega) h2 hzz
      · intro j h1 h2 hzz
        by_cases hj : j = i + 1
        · subst hj; exact hcur
        · exact hnz j (by omega) h2 hzz
      · rw [hlast, firstZeroFrom_eq_succ q P (i + 1) hi hz]

/-- Full characterisation of a successful `EncodePayload` run with
delimiter 0: the overhead byte holds the distance to the first
delimiter-valued payload byte (or to the appended delimiter), every
delimiter-valued payload byte holds the distance to the next one, all
other bytes are untouched, and the appended delimiter sits at `P + 1`. -/
theorem encode_spec (buf : List Nat) (P : Nat) (h1 : 1 ≤ P) (h2 : P ≤ 254)
    (h3 : P + 2 ≤ buf.length) (h4 : buf.length < 65536) (h5 : buf.getD 0 0 = 0) :
    (EncodePayload buf P 0).ret = P + 2 ∧
    (EncodePayload buf P 0).status = kPayloadEncoded ∧
    (EncodePayload buf P 0).buffer.length = buf.length ∧
    (EncodePayload buf P 0).buffer.getD 0 0 = firstZeroFrom (buf.set (P + 1) 0) P 1 ∧
    (∀ j, 1 ≤ j → j ≤ P → buf.getD j 0 = 0 →
      (EncodePayload buf P 0).buffer.getD j 0 =
        firstZeroFrom (buf.set (P + 1) 0) P (j + 1) - j) ∧
    (∀ j, 1 ≤ j → j ≤ P → buf.getD j 0 ≠ 0 →
      (EncodePayload buf P 0).buffer.getD j 0 = buf.getD j 0) ∧
    (∀ j, P < j → (EncodePayload buf P 0).buffer.getD j 0 = (buf.set (P + 1) 0).getD j 0) := by
  have hq : P + 2 ≤ (buf.set (P + 1) 0).length := by rw [List.length_set]; exact h3
  obtain ⟨e1, e2, e3, e4, e5, e6⟩ :=
    encodeLoop_chain (buf.set (P + 1) 0) P h2 hq P (buf.set (P + 1) 0) 0 (Nat.le_refl P)
      rfl (fun _ _ => rfl) (fun _ hj hj2 _ => (by omega : False).elim)
      (fun _ hj hj2 _ => (by omega : False).elim) (fun _ _ => rfl)
      (by rw [firstZeroFrom_top _ _ _ (Nat.lt_succ_self P)]; simp)
  have hunf : EncodePayload buf P 0 =
      ⟨if (encodeLoop 0 P P (buf.set (P + 1) 0) 0).2 ≠ 0 then
          (encodeLoop 0 P P (buf.set (P + 1) 0) 0).1.set 0
            (encodeLoop 0 P P (buf.set (P + 1) 0) 0).2
        else (encodeLoop 0 P P (buf.set (P + 1) 0) 0).1.set 0 (P + 1),
        P + 2, kPayloadEncoded⟩ := by
    simp only [EncodePayload]
    rw [if_neg (by omega), if_neg (by omega),
      if_neg (by rw [Nat.mod_eq_of_lt h4]; omega), if_neg (not_not_intro h5)]
  have hlenq : (buf.set (P + 1) 0).length = buf.length := List.length_set buf (P + 1) 0
  have hr1pos : 0 < (encodeLoop 0 P P (buf.set (P + 1) 0) 0).1.length := by
    rw [e1, hlenq]; omega
  have hFge : 1 ≤ firstZeroFrom (buf.set (P + 1) 0) P 1 :=
    firstZeroFrom_ge _ _ _ (by omega)
  have hFle : firstZeroFrom (buf.set (P + 1) 0) P 1 ≤ P + 1 :=
    firstZeroFrom_le _ _ _ (by omega)
  have hbuf2 : ∀ j, 1 ≤ j → (EncodePayload buf P 0).buffer.getD j 0 =
      (encodeLoop 0 P P (buf.set (P + 1) 0) 0).1.getD j 0 := by
    intro j hj
    rw [hunf]
    by_cases hc : (encodeLoop 0 P P (buf.set (P + 1) 0) 0).2 ≠ 0
    · simp only [if_pos hc]
      exact getD_set_ne _ _ _ _ (by omega)
    · simp only [if_neg hc]
      exact getD_set_ne _ _ _ _ (by omega)
  refine ⟨by rw [hunf], by rw [hunf], ?_, ?_, ?_, ?_, ?_⟩
  · rw [hunf]
    by_cases hc : (encodeLoop 0 P P (buf.set (P + 1) 0) 0).2 ≠ 0
    · simp only [if_pos hc, List.length_set]
      rw [e1, hlenq]
    · simp only [if_neg hc, List.length_set]
      rw [e1, hlenq]
  · rw [hunf]
    by_cases hFP : firstZeroFrom (buf.set (P + 1) 0) P 1 ≤ P
    · have hv : (encodeLoop 0 P P (buf.set (P + 1) 0) 0).2 =
          firstZeroFrom (buf.set (P + 1) 0) P 1 := by rw [e6, if_pos hFP]
      rw [if_pos (by rw [hv]; omega), hv]
      exact getD_set_self _ _ _ hr1pos
    · have hv : (encodeLoop 0 P P (buf.set (P + 1) 0) 0).2 = 0 := by
        rw [e6, if_neg hFP]
      rw [if_neg (by rw [hv]; simp)]
      rw [getD_set_self _ _ _ hr1pos]
      omega
  · intro j hj1 hj2 hz
    rw [hbuf2 j hj1]
    exact e3 j hj1 hj2 (by rw [getD_set_ne _ _ _ _ (by omega)]; exact hz)
  · intro j hj1 hj2 hz
    rw [hbuf2 j hj1]
    rw [e4 j hj1 hj2 (by rw [getD_set_ne _ _ _ _ (by omega)]; exact hz)]
    exact getD_set_ne _ _ _ _ (by omega)
  · intro j hj
    rw [hbuf2 j (by omega)]
    exact e5 j hj

/-- The decoding loop of `DecodePayload` (delimiter 0) walking an
encoded chain: starting from chain position `r` with `next_index`
pointing at the next delimiter-valued position, the loop restores every
chain position to 0, reaches the appended delimiter at `P + 1`, and
returns the payload size `P`. -/
theorem decode_walk (q : List Nat) (P : Nat) (hP : P ≤ 254) (hq : P + 2 ≤ q.length)
    (hqend : q.getD (P + 1) 0 = 0) :
    ∀ fuel r B, (r = 0 ∨ (1 ≤ r ∧ r ≤ P ∧ q.getD r 0 = 0)) →
    B.length = q.length →
    (∀ j, j ≤ r → B.getD j 0 = q.getD j 0) →
    (∀ j, r < j → j ≤ P → q.getD j 0 = 0 → B.getD j 0 = firstZeroFrom q P (j + 1) - j) →
    (∀ j, r < j → j ≤ P → q.getD j 0 ≠ 0 → B.getD j 0 = q.getD j 0) →
    (∀ j, P < j → B.getD j 0 = q.getD j 0) →
    P + 2 ≤ fuel + r →
    (decodeLoop 0 (P + 2) fuel B r (firstZeroFrom q P (r + 1) - r)).ret = P ∧
    (decodeLoop 0 (P + 2) fuel B r (firstZeroFrom q P (r + 1) - r)).status = kPayloadDecoded ∧
    (decodeLoop 0 (P + 2) fuel B r (firstZeroFrom q P (r + 1) - r)).buffer.length = q.length ∧
    (∀ j, (decodeLoop 0 (P + 2) fuel B r
      (firstZeroFrom q P (r + 1) - r)).buffer.getD j 0 = q.getD j 0) := by
  intro fuel
  induction fuel with
  | zero =>
    intro r B hr hlen hle hzero hnz hgt hfuel
    rcases hr with rfl | ⟨ha, hb, _⟩ <;> exact absurd hfuel (by omega)
  | succ fuel ih =>
    intro r B hr hlen hle hzero hnz hgt hfuel
    have hr1 : r ≤ P := by rcases hr with rfl | ⟨_, hb, _⟩ <;> omega
    have hmge : r + 1 ≤ firstZeroFrom q P (r + 1) := firstZeroFrom_ge q P (r + 1) (by omega)
    have hmle : firstZeroFrom q P (r + 1) ≤ P + 1 := firstZeroFrom_le q P (r + 1) (by omega)
    have hrn : r + (firstZeroFrom q P (r + 1) - r) = firstZeroFrom q P (r + 1) := by omega
    simp only [decodeLoop]
    rw [hrn, if_pos (by omega : firstZeroFrom q P (r + 1) < P + 2)]
    by_cases hmP : firstZeroFrom q P (r + 1) = P + 1
    · rw [hmP]
      have hB1 : B.getD (P + 1) 0 = 0 := by rw [hgt (P + 1) (by omega)]; exact hqend
      rw [if_pos hB1, if_pos (by omega : P + 1 = P + 2 - 1)]
      refine ⟨by show P + 2 - 2 = P; omega, rfl, hlen, ?_⟩
      intro j
      rcases Nat.lt_or_ge r j with hj | hj
      · rcases Nat.lt_or_ge P j with hj2 | hj2
        · exact hgt j hj2
        · refine hnz j hj hj2 ?_
          exact firstZeroFrom_ne_zero_before q P (r + 1) j (by omega) (by omega) (by omega)
      · exact hle j hj
    · have hmP2 : firstZeroFrom q P (r + 1) ≤ P := by omega
      have hqm : q.getD (firstZeroFrom q P (r + 1)) 0 = 0 :=
        firstZeroFrom_zero q P (r + 1) (by omega) hmP2
      have hm2ge : firstZeroFrom q P (r + 1) + 1 ≤ firstZeroFrom q P (firstZeroFrom q P (r + 1) + 1) :=
        firstZeroFrom_ge q P _ (by omega)
      have hBm : B.getD (firstZeroFrom q P (r + 1)) 0 =
          firstZeroFrom q P (firstZeroFrom q P (r + 1) + 1) - firstZeroFrom q P (r + 1) :=
        hzero _ (by omega) hmP2 hqm
      rw [if_neg (by rw [hBm]; omega), hBm]
      refine ih (firstZeroFrom q P (r + 1)) (B.set (firstZeroFrom q P (r + 1)) 0)
        (Or.inr ⟨by omega, hmP2, hqm⟩) (by rw [List.length_set]; exact hlen) ?_ ?_ ?_ ?_ (by omega)
      · intro j hj
        rcases Nat.eq_or_lt_of_le hj with heq | hlt
        · rw [heq, getD_set_self _ _ _ (by rw [hlen]; omega)]
          exact hqm.symm
        · rw [getD_set_ne _ _ _ _ (by omega)]
          rcases Nat.lt_or_ge r j with hj2 | hj2
          · refine hnz j hj2 (by omega) ?_
            exact firstZeroFrom_ne_zero_before q P (r + 1) j (by omega) (by omega) (by omega)
          · exact hle j hj2
      · intro j hj1 hj2 hz
        rw [getD_set_ne _ _ _ _ (by omega)]
        exact hzero j (by omega) hj2 hz
      · intro j hj1 hj2 hz
        rw [getD_set_ne _ _ _ _ (by omega)]
        exact hnz j (by omega) hj2 hz
      · intro j hj
        rw [getD_set_ne _ _ _ _ (by omega)]
        exact hgt j hj

/-! ## General-delimiter facts about the COBS methods -/

theorem encodeLoop_length (D pe : Nat) :
    ∀ i buf last, (encodeLoop D pe i buf last).1.length = buf.length := by
  intro i
  induction i with
  | zero => intro buf last; rfl
  | succ i ih =>
    intro buf last
    simp only [encodeLoop]
    by_cases hz : buf.getD (i + 1) 0 = D
    · rw [if_pos hz, ih, List.length_set]
    · rw [if_neg hz, ih]

/-- A successful `EncodePayload` run (any delimiter) returns `P + 2`,
preserves the buffer length and leaves a non-zero overhead byte. -/
theorem encode_success (buf : List Nat) (P D : Nat) (h1 : 1 ≤ P) (h2 : P ≤ 254)
    (h3 : P + 2 ≤ buf.length) (h4 : buf.length < 65536) (h5 : buf.getD 0 0 = 0) :
    (EncodePayload buf P D).ret = P + 2 ∧
    (EncodePayload buf P D).status = kPayloadEncoded ∧
    (EncodePayload buf P D).buffer.length = buf.length ∧
    (EncodePayload buf P D).buffer.getD 0 0 ≠ 0 := by
  have hunf : EncodePayload buf P D =
      ⟨if (encodeLoop D P P (buf.set (P + 1) D) 0).2 ≠ 0 then
          (encodeLoop D P P (buf.set (P + 1) D) 0).1.set 0
            (encodeLoop D P P (buf.set (P + 1) D) 0).2
        else (encodeLoop D P P (buf.set (P + 1) D) 0).1.set 0 (P + 1),
        P + 2, kPayloadEncoded⟩ := by
    simp only [EncodePayload]
    rw [if_neg (by omega), if_neg (by omega),
      if_neg (by rw [Nat.mod_eq_of_lt h4]; omega), if_neg (not_not_intro h5)]
  have hlen0 : 0 < (encodeLoop D P P (buf.set (P + 1) D) 0).1.length := by
    rw [encodeLoop_length, List.length_set]; omega
  refine ⟨by rw [hunf], by rw [hunf], ?_, ?_⟩
  · rw [hunf]
    by_cases hc : (encodeLoop D P P (buf.set (P + 1) D) 0).2 ≠ 0
    · simp only [if_pos hc, List.length_set]
      rw [encodeLoop_length, List.length_set]
    · simp only [if_neg hc, List.length_set]
      rw [encodeLoop_length, List.length_set]
  · rw [hunf]
    by_cases hc : (encodeLoop D P P (buf.set (P + 1) D) 0).2 ≠ 0
    · simp only [if_pos hc]
      rw [getD_set_self _ _ _ hlen0]
      exact hc
    · simp only [if_neg hc]
      rw [getD_set_self _ _ _ hlen0]
      omega

/-- The decoding loop never rewrites buffer index 0 (its write index
`read_index + next_index` stays at least 1) and preserves the buffer
length. -/
theorem decodeLoop_keep_zero (D L : Nat) :
    ∀ fuel buf r n, 1 ≤ r + n →
    (decodeLoop D L fuel buf r n).buffer.getD 0 0 = buf.getD 0 0 ∧
    (decodeLoop D L fuel buf r n).buffer.length = buf.length := by
  intro fuel
  induction fuel with
  | zero => intro buf r n _; exact ⟨rfl, rfl⟩
  | succ fuel ih =>
    intro buf r n hrn
    simp only [decodeLoop]
    by_cases hc : r + n < L
    · rw [if_pos hc]
      by_cases hd : buf.getD (r + n) 0 = D
      · rw [if_pos hd]
        by_cases he : r + n = L - 1
        · rw [if_pos he]; exact ⟨rfl, rfl⟩
        · rw [if_neg he]; exact ⟨rfl, rfl⟩
      · rw [if_neg hd]
        have := ih (buf.set (r + n) D) (r + n) (buf.getD (r + n) 0) (by omega)
        refine ⟨?_, ?_⟩
        · rw [this.1, getD_set_ne _ _ _ _ (by omega)]
        · rw [this.2, List.length_set]
    · rw [if_neg hc]; exact ⟨rfl, rfl⟩

/-! ## Claim theorems: COBS codec -/

/-- Claim C1 (corrected), amended part: for payloads of length 1..254
and the delimiter byte 0, encoding and then decoding the resulting
packet succeeds and restores the original payload bytes at indices
1..P.  (For non-zero delimiters the round trip can fail, see the
counterexample.) -/
theorem c1_cobs_roundtrip_delim_zero (buf : List Nat) (P : Nat)
    (h1 : 1 ≤ P) (h2 : P ≤ 254) (h3 : P + 2 ≤ buf.length) (h4 : buf.length < 65536)
    (h5 : buf.getD 0 0 = 0) (h6 : ∀ x ∈ buf, x < 256) :
    (EncodePayload buf P 0).ret = P + 2 ∧
    (DecodePayload (EncodePayload buf P 0).buffer (P + 2) 0).ret = P ∧
    (DecodePayload (EncodePayload buf P 0).buffer (P + 2) 0).status = kPayloadDecoded ∧
    ∀ j, 1 ≤ j → j ≤ P →
      (DecodePayload (EncodePayload buf P 0).buffer (P + 2) 0).buffer.getD j 0 =
        buf.getD j 0 := by
  obtain ⟨e1, e2, e3, e4, e5, e6, e7⟩ := encode_spec buf P h1 h2 h3 h4 h5
  have hq0 : (buf.set (P + 1) 0).getD 0 0 = 0 := by
    rw [getD_set_ne _ _ _ _ (by omega)]; exact h5
  have hqend : (buf.set (P + 1) 0).getD (P + 1) 0 = 0 :=
    getD_set_self _ _ _ (by omega)
  have hqlen : P + 2 ≤ (buf.set (P + 1) 0).length := by rw [List.length_set]; exact h3
  have hFge : 1 ≤ firstZeroFrom (buf.set (P + 1) 0) P 1 :=
    firstZeroFrom_ge _ _ _ (by omega)
  have hunf : DecodePayload (EncodePayload buf P 0).buffer (P + 2) 0 =
      decodeLoop 0 (P + 2) (2 * (P + 2) + 2) ((EncodePayload buf P 0).buffer.set 0 0) 0
        ((EncodePayload buf P 0).buffer.getD 0 0) := by
    simp only [DecodePayload]
    rw [if_neg (by omega), if_neg (by omega),
      if_neg (by rw [e3, Nat.mod_eq_of_lt h4]; omega), if_neg (by rw [e4]; omega)]
  obtain ⟨d1, d2, d3, d4⟩ := decode_walk (buf.set (P + 1) 0) P h2 hqlen hqend
    (2 * (P + 2) + 2) 0 ((EncodePayload buf P 0).buffer.set 0 0) (Or.inl rfl)
    (by rw [List.length_set, e3, List.length_set])
    (by
      intro j hj
      have hj0 : j = 0 := Nat.le_zero.mp hj
      rw [hj0, getD_set_self _ _ _ (by rw [e3]; omega), hq0])
    (by
      intro j hj1 hj2 hz
      rw [getD_set_ne _ _ _ _ (by omega)]
      exact e5 j (by omega) hj2 (by rw [← getD_set_ne buf (P + 1) j 0 (by omega)]; exact hz))
    (by
      intro j hj1 hj2 hz
      rw [getD_set_ne _ _ _ _ (by omega)]
      rw [e6 j (by omega) hj2 (by rw [← getD_set_ne buf (P + 1) j 0 (by omega)]; exact hz)]
      rw [getD_set_ne _ _ _ _ (by omega)]
    )
    (by
      intro j hj
      rw [getD_set_ne _ _ _ _ (by omega)]
      exact e7 j hj)
    (by omega)
  simp only [Nat.zero_add, Nat.sub_zero] at d1 d2 d3 d4
  rw [hunf, e4]
  refine ⟨e1, d1, d2, ?_⟩
  intro j hj1 hj2
  rw [d4 j, getD_set_ne _ _ _ _ (by omega)]

/-- Claim C1 counterexample: with delimiter byte D = 2 and payload
[2, 5, 2] (P = 3), encoding succeeds but the chain distance written at
index 1 equals the delimiter value, so decoding the resulting packet
with the same delimiter aborts with kDecoderDelimiterFoundTooEarly
instead of restoring the payload.  The claim as stated (every D in
[0,255]) is therefore false. -/
theorem c1_roundtrip_counterexample :
    (EncodePayload [0, 2, 5, 2, 0] 3 2).ret = 5 ∧
    (EncodePayload [0, 2, 5, 2, 0] 3 2).buffer = [1, 2, 5, 1, 2] ∧
    (DecodePayload (EncodePayload [0, 2, 5, 2, 0] 3 2).buffer 5 2).ret = 0 ∧
    (DecodePayload (EncodePayload [0, 2, 5, 2, 0] 3 2).buffer 5 2).status =
      kDecoderDelimiterFoundTooEarly := by decide

/-- Witness for the amended claim C1 theorem at the concrete payload
[7] (P = 1, delimiter 0). -/
theorem c1_roundtrip_witness :
    (1 ≤ 1 ∧ 1 ≤ 254 ∧ 1 + 2 ≤ [0, 7, 0].length ∧ [0, 7, 0].length < 65536 ∧
      [0, 7, 0].getD 0 0 = 0 ∧ ∀ x ∈ [0, 7, 0], x < 256) ∧
    ((EncodePayload [0, 7, 0] 1 0).ret = 1 + 2 ∧
      (DecodePayload (EncodePayload [0, 7, 0] 1 0).buffer (1 + 2) 0).ret = 1 ∧
      (DecodePayload (EncodePayload [0, 7, 0] 1 0).buffer (1 + 2) 0).status = kPayloadDecoded ∧
      ∀ j, 1 ≤ j → j ≤ 1 →
        (DecodePayload (EncodePayload [0, 7, 0] 1 0).buffer (1 + 2) 0).buffer.getD j 0 =
          [0, 7, 0].getD j 0) :=
  ⟨⟨by decide, by decide, by decide, by decide, by decide, by decide⟩,
    c1_cobs_roundtrip_delim_zero [0, 7, 0] 1 (by decide) (by decide) (by decide) (by decide)
      (by decide) (by decide)⟩

/-- Claim C3 (confirmed): the spec scenario S1.  Payload
[10,0,0,20,0,0,0,143,12,54] at indices 1..10 with a zeroed overhead
slot encodes (delimiter 0) to the 12-byte packet
[2,10,1,2,20,1,1,4,143,12,54,0] with return value 12, and decoding that
packet restores the original payload with return value 10. -/
theorem c3_concrete_roundtrip :
    EncodePayload [0, 10, 0, 0, 20, 0, 0, 0, 143, 12, 54, 0] 10 0 =
      ⟨[2, 10, 1, 2, 20, 1, 1, 4, 143, 12, 54, 0], 12, kPayloadEncoded⟩ ∧
    DecodePayload [2, 10, 1, 2, 20, 1, 1, 4, 143, 12, 54, 0] 12 0 =
      ⟨[0, 10, 0, 0, 20, 0, 0, 0, 143, 12, 54, 0], 10, kPayloadDecoded⟩ := by decide

/-- A buffer with non-zero overhead byte is rejected by EncodePayload
with kPayloadAlreadyEncoded (once the size guards pass). -/
theorem encode_already (b : List Nat) (P D : Nat) (h1 : 1 ≤ P) (h2 : P ≤ 254)
    (h3 : P + 2 ≤ b.length) (h4 : b.length < 65536) (h5 : b.getD 0 0 ≠ 0) :
    EncodePayload b P D = ⟨b, 0, kPayloadAlreadyEncoded⟩ := by
  simp only [EncodePayload]
  rw [if_neg (by omega), if_neg (by omega),
    if_neg (by rw [Nat.mod_eq_of_lt h4]; omega), if_pos h5]

/-- A buffer with zero overhead byte is rejected by DecodePayload with
kPacketAlreadyDecoded (once the size guards pass). -/
theorem decode_already (b : List Nat) (L D : Nat) (h1 : 3 ≤ L) (h2 : L ≤ 256)
    (h3 : L ≤ b.length) (h4 : b.length < 65536) (h5 : b.getD 0 0 = 0) :
    DecodePayload b L D = ⟨b, 0, kPacketAlreadyDecoded⟩ := by
  simp only [DecodePayload]
  rw [if_neg (by omega), if_neg (by omega),
    if_neg (by rw [Nat.mod_eq_of_lt h4]; omega), if_pos h5]

/-- Claim C8 (confirmed): re-encoding an already successfully encoded
buffer fails with kPayloadAlreadyEncoded returning 0 (the successful
encode left a non-zero overhead byte), and re-decoding a buffer after
any size-valid decode attempt fails with kPacketAlreadyDecoded
returning 0 (the first attempt left the overhead byte at 0). -/
theorem c8_reencode_redecode_rejected :
    (∀ (buf : List Nat) (P D : Nat), 1 ≤ P → P ≤ 254 → P + 2 ≤ buf.length →
      buf.length < 65536 → buf.getD 0 0 = 0 →
      (EncodePayload buf P D).ret = P + 2 ∧
      (EncodePayload (EncodePayload buf P D).buffer P D).ret = 0 ∧
      (EncodePayload (EncodePayload buf P D).buffer P D).status = kPayloadAlreadyEncoded) ∧
    (∀ (buf : List Nat) (L D : Nat), 3 ≤ L → L ≤ 256 → L ≤ buf.length →
      buf.length < 65536 →
      (DecodePayload (DecodePayload buf L D).buffer L D).ret = 0 ∧
      (DecodePayload (DecodePayload buf L D).buffer L D).status = kPacketAlreadyDecoded) := by
  constructor
  · intro buf P D h1 h2 h3 h4 h5
    obtain ⟨e1, _, e3, e4⟩ := encode_success buf P D h1 h2 h3 h4 h5
    have hsecond := encode_already (EncodePayload buf P D).buffer P D h1 h2
      (by rw [e3]; exact h3) (by rw [e3]; exact h4) e4
    exact ⟨e1, by rw [hsecond], by rw [hsecond]⟩
  · intro buf L D h1 h2 h3 h4
    by_cases hz : buf.getD 0 0 = 0
    · have hfirst := decode_already buf L D h1 h2 h3 h4 hz
      rw [hfirst]
      have hsecond := decode_already buf L D h1 h2 h3 h4 hz
      exact ⟨by rw [hsecond], by rw [hsecond]⟩
    · have hfirst : DecodePayload buf L D =
          decodeLoop D L (2 * L + 2) (buf.set 0 0) 0 (buf.getD 0 0) := by
        simp only [DecodePayload]
        rw [if_neg (by omega), if_neg (by omega),
          if_neg (by rw [Nat.mod_eq_of_lt h4]; omega), if_neg hz]
      obtain ⟨k1, k2⟩ := decodeLoop_keep_zero D L (2 * L + 2) (buf.set 0 0) 0
        (buf.getD 0 0) (by omega)
      have hz2 : (DecodePayload buf L D).buffer.getD 0 0 = 0 := by
        rw [hfirst, k1, getD_set_self _ _ _ (by omega)]
      have hlen2 : (DecodePayload buf L D).buffer.length = buf.length := by
        rw [hfirst, k2, List.length_set]
      have hsecond := decode_already (DecodePayload buf L D).buffer L D h1 h2
        (by rw [hlen2]; exact h3) (by rw [hlen2]; exact h4) hz2
      exact ⟨by rw [hsecond], by rw [hsecond]⟩

/-- Witness for the claim C8 theorem: encode twice on the payload [7]
(P = 1), decode twice on the packet [2, 7, 0] (L = 3). -/
theorem c8_reencode_redecode_witness :
    ((EncodePayload [0, 7, 0] 1 0).ret = 1 + 2 ∧
      (EncodePayload (EncodePayload [0, 7, 0] 1 0).buffer 1 0).ret = 0 ∧
      (EncodePayload (EncodePayload [0, 7, 0] 1 0).buffer 1 0).status =
        kPayloadAlreadyEncoded) ∧
    ((DecodePayload (DecodePayload [2, 7, 0] 3 0).buffer 3 0).ret = 0 ∧
      (DecodePayload (DecodePayload [2, 7, 0] 3 0).buffer 3 0).status =
        kPacketAlreadyDecoded) :=
  ⟨c8_reencode_redecode_rejected.1 [0, 7, 0] 1 0 (by decide) (by decide) (by decide)
      (by decide) (by decide),
    c8_reencode_redecode_rejected.2 [2, 7, 0] 3 0 (by decide) (by decide) (by decide)
      (by decide)⟩

/-- Claim C10 (confirmed): whenever EncodePayload fails (returns 0 via
any of its four error statuses), the buffer is returned unchanged: all
four validation checks precede the first buffer write. -/
theorem c10_encode_failure_preserves_buffer (buf : List Nat) (P D : Nat)
    (h : (EncodePayload buf P D).ret = 0) : (EncodePayload buf P D).buffer = buf := by
  simp only [EncodePayload] at h ⊢
  split_ifs at h ⊢
  · rfl
  · rfl
  · rfl
  · rfl
  · have h2 : P + 2 = 0 := h
    omega
  · have h2 : P + 2 = 0 := h
    omega

/-- Witness for the claim C10 theorem: the empty payload (P = 0) fails
with kEncoderTooSmallPayloadSize and the buffer is unchanged. -/
theorem c10_encode_failure_witness :
    (EncodePayload [0, 9, 0] 0 0).ret = 0 ∧
    (EncodePayload [0, 9, 0] 0 0).buffer = [0, 9, 0] :=
  ⟨by decide, c10_encode_failure_preserves_buffer [0, 9, 0] 0 0 (by decide)⟩

/-! ## writeBytes and msbBytes lemmas -/

theorem writeBytes_length : ∀ (src buf : List Nat) (pos : Nat),
    (writeBytes buf pos src).length = buf.length := by
  intro src
  induction src with
  | nil => intro buf pos; rfl
  | cons b rest ih =>
    intro buf pos
    simp only [writeBytes]
    rw [ih, List.length_set]

theorem writeBytes_getD_lt : ∀ (src buf : List Nat) (pos j : Nat), j < pos →
    (writeBytes buf pos src).getD j 0 = buf.getD j 0 := by
  intro src
  induction src with
  | nil => intro buf pos j _; rfl
  | cons b rest ih =>
    intro buf pos j hj
    simp only [writeBytes]
    rw [ih _ _ _ (by omega), getD_set_ne _ _ _ _ (by omega)]

theorem writeBytes_getD_in : ∀ (src buf : List Nat) (pos i : Nat), i < src.length →
    pos + src.length ≤ buf.length →
    (writeBytes buf pos src).getD (pos + i) 0 = src.getD i 0 := by
  intro src
  induction src with
  | nil => intro buf pos i hi _; simp at hi
  | cons b rest ih =>
    intro buf pos i hi hlen
    simp only [List.length_cons] at hi hlen
    cases i with
    | zero =>
      simp only [writeBytes, Nat.add_zero]
      rw [writeBytes_getD_lt rest _ (pos + 1) pos (by omega)]
      rw [getD_set_self _ _ _ (by omega)]
      rfl
    | succ i2 =>
      simp only [writeBytes]
      have harr : pos + (i2 + 1) = (pos + 1) + i2 := by omega
      rw [harr, ih (buf.set pos b) (pos + 1) i2 (by omega) (by rw [List.length_set]; omega)]
      rfl

theorem getD_map_range (f : Nat → Nat) (w i : Nat) (h : i < w) :
    ((List.range w).map f).getD i 0 = f i := by
  rw [List.getD_eq_getElem?_getD, List.getElem?_map, List.getElem?_range h]
  rfl

/-! ## CRC register lemmas -/

theorem crcRound_lt (w poly c : Nat) : crcRound w poly c < 2 ^ (8 * w) := by
  unfold crcRound
  split_ifs <;> exact Nat.mod_lt _ (Nat.two_pow_pos (8 * w))

theorem crcTableEntry_lt (w poly b : Nat) : crcTableEntry w poly b < 2 ^ (8 * w) := by
  simp only [crcTableEntry]
  exact crcRound_lt _ _ _

theorem crcRound_zero (w poly : Nat) : crcRound w poly 0 = 0 := by
  unfold crcRound
  rw [if_neg (by simp)]
  simp

theorem crcTableEntry_zero (w poly : Nat) : crcTableEntry w poly 0 = 0 := by
  have hc0 : (if 8 < 8 * w then ((0 : Nat) % 256) <<< (8 * w - 8) else (0 : Nat) % 256) = 0 := by
    split_ifs <;> simp
  simp only [crcTableEntry]
  rw [hc0, crcRound_zero, crcRound_zero, crcRound_zero, crcRound_zero, crcRound_zero,
    crcRound_zero, crcRound_zero, crcRound_zero]

theorem crcUpdate_lt (w poly c b : Nat) : crcUpdate w poly c b < 2 ^ (8 * w) := by
  unfold crcUpdate
  exact Nat.xor_lt_two_pow (Nat.mod_lt _ (Nat.two_pow_pos (8 * w))) (crcTableEntry_lt _ _ _)

theorem crcFeed_lt (w poly : Nat) (bytes : List Nat) : ∀ c, c < 2 ^ (8 * w) →
    crcFeed w poly c bytes < 2 ^ (8 * w) := by
  induction bytes with
  | nil => intro c hc; exact hc
  | cons b rest ih =>
    intro c hc
    simp only [crcFeed, List.foldl_cons]
    exact ih _ (crcUpdate_lt _ _ _ _)

theorem mod_pow_div_mod (s n d : Nat) (h : d + 8 ≤ n) :
    s % 2 ^ n / 2 ^ d % 2 ^ 8 = s / 2 ^ d % 2 ^ 8 := by
  have h1 : 2 ^ n = 2 ^ d * 2 ^ (n - d) := by rw [← pow_add]; congr 1; omega
  rw [h1, Nat.mod_mul_right_div_self]
  exact Nat.mod_mod_of_dvd _ (pow_dvd_pow 2 (by omega))

/-- Shifting the register left by one byte turns its byte `i + 1` (from
the top) into byte `i` of the shifted, truncated register. -/
theorem shift_byte_step (w s i : Nat) (hi : i + 2 ≤ w) :
    ((s <<< 8) % 2 ^ (8 * w)) >>> (8 * (w - 1 - i)) % 256 =
      s >>> (8 * (w - 2 - i)) % 256 := by
  have h256 : (256 : Nat) = 2 ^ 8 := by norm_num
  rw [Nat.shiftLeft_eq, Nat.shiftRight_eq_div_pow, Nat.shiftRight_eq_div_pow, h256]
  have hM : 2 ^ (8 * w) = 2 ^ (8 * w - 8) * 2 ^ 8 := by rw [← pow_add]; congr 1; omega
  rw [hM, Nat.mul_mod_mul_right]
  have ha : 8 * (w - 1 - i) = 8 * (w - 2 - i) + 8 := by omega
  rw [ha, pow_add, Nat.mul_div_mul_right _ _ (Nat.two_pow_pos 8)]
  exact mod_pow_div_mod s (8 * w - 8) (8 * (w - 2 - i)) (by omega)

/-- Feeding the top `k` bytes of the register value `s` (most
significant first) back into the CRC register shifts the register left
by `k` bytes: each step indexes table entry 0, which is 0. -/
theorem crcFeed_top_bytes (w poly : Nat) :
    ∀ k, k ≤ w → ∀ s, s < 2 ^ (8 * w) →
    crcFeed w poly s ((List.range k).map fun i => s >>> (8 * (w - 1 - i)) % 256) =
      (s <<< (8 * k)) % 2 ^ (8 * w) := by
  intro k
  induction k with
  | zero =>
    intro _ s hs
    simp only [List.range_zero, List.map_nil, crcFeed, List.foldl_nil]
    rw [Nat.shiftLeft_eq]
    simp [Nat.mod_eq_of_lt hs]
  | succ k ih =>
    intro hk s hs
    rw [List.range_succ_eq_map]
    simp only [List.map_cons, List.map_map, crcFeed, List.foldl_cons]
    have hb0 : s >>> (8 * (w - 1 - 0)) % 256 = s >>> (8 * (w - 1)) := by
      rw [Nat.sub_zero]
      apply Nat.mod_eq_of_lt
      rw [Nat.shiftRight_eq_div_pow]
      apply Nat.div_lt_of_lt_mul
      calc s < 2 ^ (8 * w) := hs
        _ = 2 ^ (8 * (w - 1)) * 2 ^ 8 := by rw [← pow_add]; congr 1; omega
        _ = 2 ^ (8 * (w - 1)) * 256 := by norm_num
    have hupd : crcUpdate w poly s (s >>> (8 * (w - 1 - 0)) % 256) =
        (s <<< 8) % 2 ^ (8 * w) := by
      unfold crcUpdate
      rw [hb0, Nat.xor_self]
      simp only [Nat.zero_mod, crcTableEntry_zero, Nat.xor_zero]
    rw [hupd]
    have hlist : List.map ((fun i => s >>> (8 * (w - 1 - i)) % 256) ∘ Nat.succ)
        (List.range k) =
        List.map (fun i => ((s <<< 8) % 2 ^ (8 * w)) >>> (8 * (w - 1 - i)) % 256)
          (List.range k) := by
      apply List.map_congr_left
      intro i hi
      rw [List.mem_range] at hi
      simp only [Function.comp]
      rw [shift_byte_step w s i (by omega)]
      have he : w - 1 - Nat.succ i = w - 2 - i := by omega
      rw [he]
    have hgoal := ih (by omega) ((s <<< 8) % 2 ^ (8 * w))
      (Nat.mod_lt _ (Nat.two_pow_pos (8 * w)))
    simp only [crcFeed] at hgoal ⊢
    rw [hlist, hgoal]
    rw [Nat.shiftLeft_eq, Nat.shiftLeft_eq, Nat.shiftLeft_eq, Nat.mod_mul_mod,
      mul_assoc, ← pow_add]
    have hp : 8 + 8 * k = 8 * (k + 1) := by ring
    rw [hp]

/-- Feeding all `w` bytes of the register value (MSB first) drives the
register to 0: the CRC self-check core. -/
theorem crcFeed_register_bytes (w poly s : Nat) (hs : s < 2 ^ (8 * w)) :
    crcFeed w poly s (msbBytes w s) = 0 := by
  have h := crcFeed_top_bytes w poly w (Nat.le_refl w) s hs
  rw [msbBytes]
  rw [h, Nat.shiftLeft_eq]
  exact Nat.mul_mod_left _ _

theorem crcFeed_append (w poly : Nat) (c : Nat) (l1 l2 : List Nat) :
    crcFeed w poly c (l1 ++ l2) = crcFeed w poly (crcFeed w poly c l1) l2 := by
  simp [crcFeed, List.foldl_append]

/-! ## Claim theorems: CRC engine -/

/-- Claim C2 (corrected), amended part: for every buffer region, every
CRC width in {1,2,4} bytes, every polynomial and initial value, and a
zero final-XOR value, computing the checksum, appending it MSB-first
with AddCRCChecksumToBuffer and re-running the checksum over the region
plus the appended bytes yields 0.  (With a non-zero final XOR the
re-computed value is in general non-zero, see the counterexample.) -/
theorem c2_crc_self_check (w poly initVal : Nat) (buffer : List Nat) (start L : Nat)
    (hw : w = 1 ∨ w = 2 ∨ w = 4) (hinit : initVal < 2 ^ (8 * w))
    (hb : buffer.length < 65536) (hfit : start + L + w ≤ buffer.length) :
    (CalculatePacketCRCChecksum w poly initVal 0 buffer start L).status =
      kCRCChecksumCalculated ∧
    (AddCRCChecksumToBuffer w buffer (start + L)
      (CalculatePacketCRCChecksum w poly initVal 0 buffer start L).value).status =
        kCRCChecksumAddedToBuffer ∧
    (CalculatePacketCRCChecksum w poly initVal 0
      (AddCRCChecksumToBuffer w buffer (start + L)
        (CalculatePacketCRCChecksum w poly initVal 0 buffer start L).value).buffer
      start (L + w)).value = 0 := by
  have hmod : buffer.length % 65536 = buffer.length := Nat.mod_eq_of_lt hb
  have hunf1 : CalculatePacketCRCChecksum w poly initVal 0 buffer start L =
      ⟨crcFeed w poly initVal ((List.range L).map fun i => buffer.getD (start + i) 0) ^^^ 0,
        kCRCChecksumCalculated⟩ := by
    simp only [CalculatePacketCRCChecksum]
    rw [if_neg (by omega)]
  have hr : crcFeed w poly initVal ((List.range L).map fun i => buffer.getD (start + i) 0) <
      2 ^ (8 * w) := crcFeed_lt w poly _ initVal hinit
  have hval : (CalculatePacketCRCChecksum w poly initVal 0 buffer start L).value =
      crcFeed w poly initVal ((List.range L).map fun i => buffer.getD (start + i) 0) := by
    rw [hunf1, Nat.xor_zero]
  have hmsblen : (msbBytes w
      (CalculatePacketCRCChecksum w poly initVal 0 buffer start L).value).length = w := by
    rw [msbBytes, List.length_map, List.length_range]
  have hunf2 : AddCRCChecksumToBuffer w buffer (start + L)
      (CalculatePacketCRCChecksum w poly initVal 0 buffer start L).value =
      ⟨writeBytes buffer (start + L)
          (msbBytes w (CalculatePacketCRCChecksum w poly initVal 0 buffer start L).value),
        start + L + w, kCRCChecksumAddedToBuffer⟩ := by
    simp only [AddCRCChecksumToBuffer]
    rw [if_neg (by omega)]
  refine ⟨by rw [hunf1], by rw [hunf2], ?_⟩
  rw [hunf2]
  have hval3 : (CalculatePacketCRCChecksum w poly initVal 0
      (writeBytes buffer (start + L)
        (msbBytes w (CalculatePacketCRCChecksum w poly initVal 0 buffer start L).value))
      start (L + w)).value =
      crcFeed w poly initVal ((List.range (L + w)).map fun i =>
        (writeBytes buffer (start + L)
          (msbBytes w
            (CalculatePacketCRCChecksum w poly initVal 0 buffer start L).value)).getD
          (start + i) 0) ^^^ 0 := by
    simp only [CalculatePacketCRCChecksum]
    rw [if_neg (by rw [writeBytes_length]; omega)]
  rw [hval3, Nat.xor_zero]
  have hsplit : (List.range (L + w)).map (fun i =>
      (writeBytes buffer (start + L)
        (msbBytes w (CalculatePacketCRCChecksum w poly initVal 0 buffer start L).value)).getD
        (start + i) 0) =
      ((List.range L).map fun i => buffer.getD (start + i) 0) ++
        msbBytes w (CalculatePacketCRCChecksum w poly initVal 0 buffer start L).value := by
    rw [List.range_add, List.map_append, List.map_map]
    congr 1
    · apply List.map_congr_left
      intro i hi
      rw [List.mem_range] at hi
      exact writeBytes_getD_lt _ _ _ _ (by omega)
    · conv_rhs => rw [msbBytes]
      apply List.map_congr_left
      intro i hi
      rw [List.mem_range] at hi
      simp only [Function.comp]
      have hidx : start + (L + i) = (start + L) + i := by omega
      rw [hidx, writeBytes_getD_in _ _ _ _ (by rw [hmsblen]; exact hi)
        (by rw [hmsblen]; omega)]
      rw [msbBytes, getD_map_range _ _ _ hi]
  rw [hsplit, crcFeed_append, hval]
  exact crcFeed_register_bytes w poly _ hr

/-- Claim C2 counterexample: with CRC-8, polynomial 0x07, initial value
0 and final XOR value 1, the checksum of the one-byte buffer region [0]
is 1; appending it and re-running the checksum over both bytes yields
6, not 0.  The claim as stated (any final XOR value) is therefore
false. -/
theorem c2_final_xor_counterexample :
    (CalculatePacketCRCChecksum 1 7 0 1 [0, 0] 0 1).status = kCRCChecksumCalculated ∧
    (CalculatePacketCRCChecksum 1 7 0 1 [0, 0] 0 1).value = 1 ∧
    (AddCRCChecksumToBuffer 1 [0, 0] 1
      (CalculatePacketCRCChecksum 1 7 0 1 [0, 0] 0 1).value).buffer = [0, 1] ∧
    (CalculatePacketCRCChecksum 1 7 0 1
      (AddCRCChecksumToBuffer 1 [0, 0] 1
        (CalculatePacketCRCChecksum 1 7 0 1 [0, 0] 0 1).value).buffer 0 (1 + 1)).value = 6 := by
  decide

/-- Witness for the amended claim C2 theorem: CRC-8 with polynomial
0x07, initial value 0, final XOR 0, over the one-byte region of
[0, 0]. -/
theorem c2_crc_self_check_witness :
    ((1 = 1 ∨ 1 = 2 ∨ 1 = 4) ∧ (0 : Nat) < 2 ^ (8 * 1) ∧
      ([0, 0] : List Nat).length < 65536 ∧ 0 + 1 + 1 ≤ ([0, 0] : List Nat).length) ∧
    ((CalculatePacketCRCChecksum 1 7 0 0 [0, 0] 0 1).status = kCRCChecksumCalculated ∧
      (AddCRCChecksumToBuffer 1 [0, 0] (0 + 1)
        (CalculatePacketCRCChecksum 1 7 0 0 [0, 0] 0 1).value).status =
          kCRCChecksumAddedToBuffer ∧
      (CalculatePacketCRCChecksum 1 7 0 0
        (AddCRCChecksumToBuffer 1 [0, 0] (0 + 1)
          (CalculatePacketCRCChecksum 1 7 0 0 [0, 0] 0 1).value).buffer 0 (1 + 1)).value = 0) :=
  ⟨⟨Or.inl rfl, by decide, by decide, by decide⟩,
    c2_crc_self_check 1 7 0 [0, 0] 0 1 (Or.inl rfl) (by decide) (by decide) (by decide)⟩

/-- Claim C4 (corrected), amended part: for buffers shorter than 65536
bytes, CalculatePacketCRCChecksum fails with
kCalculateCRCChecksumBufferTooSmall exactly when start_index +
packet_size exceeds the buffer size, and otherwise sets the
calculated-checksum status and returns the table-driven checksum of the
requested region.  (For buffers of 65536 bytes or more the size_t to
uint16_t cast wraps and the guard misfires, see the counterexample.) -/
theorem c4_calculate_guard (w poly initVal fxor : Nat) (buffer : List Nat) (start L : Nat)
    (hb : buffer.length < 65536) :
    ((CalculatePacketCRCChecksum w poly initVal fxor buffer start L).status =
        kCalculateCRCChecksumBufferTooSmall ↔ buffer.length < start + L) ∧
    (start + L ≤ buffer.length →
      (CalculatePacketCRCChecksum w poly initVal fxor buffer start L).status =
          kCRCChecksumCalculated ∧
      (CalculatePacketCRCChecksum w poly initVal fxor buffer start L).value =
        crcFeed w poly initVal ((List.range L).map fun i => buffer.getD (start + i) 0) ^^^
          fxor) := by
  by_cases hg : ((buffer.length : Int) % 65536 - (start : Int) < (L : Int))
  · have hlt : buffer.length < start + L := by omega
    have hunf : CalculatePacketCRCChecksum w poly initVal fxor buffer start L =
        ⟨0, kCalculateCRCChecksumBufferTooSmall⟩ := by
      simp only [CalculatePacketCRCChecksum]
      rw [if_pos hg]
    rw [hunf]
    exact ⟨iff_of_true rfl hlt, fun hge => absurd hge (by omega)⟩
  · have hge : start + L ≤ buffer.length := by omega
    have hunf : CalculatePacketCRCChecksum w poly initVal fxor buffer start L =
        ⟨crcFeed w poly initVal ((List.range L).map fun i => buffer.getD (start + i) 0) ^^^
            fxor, kCRCChecksumCalculated⟩ := by
      simp only [CalculatePacketCRCChecksum]
      rw [if_neg hg]
    rw [hunf]
    refine ⟨iff_of_false ?_ (by omega), fun _ => ⟨rfl, rfl⟩⟩
    intro h
    have h2 : (53 : Nat) = 52 := h
    exact absurd h2 (by decide)

/-- Claim C4 counterexample: for a 65536-byte buffer the size_t buffer
size truncates to uint16_t 0, so the guard reports
kCalculateCRCChecksumBufferTooSmall even though start_index +
packet_size = 1 does not exceed the buffer size.  The claimed
equivalence over every buffer is therefore false. -/
theorem c4_guard_counterexample :
    (CalculatePacketCRCChecksum 1 7 0 0 (List.replicate 65536 0) 0 1).status =
      kCalculateCRCChecksumBufferTooSmall ∧
    0 + 1 ≤ (List.replicate 65536 0).length := by
  constructor
  · simp only [CalculatePacketCRCChecksum]
    rw [if_pos (by rw [List.length_replicate]; norm_num)]
  · rw [List.length_replicate]; omega

/-- Witness for the amended claim C4 theorem at the two-byte buffer
[1, 2] with start 0 and packet size 3 (the guard fires). -/
theorem c4_calculate_guard_witness :
    ([1, 2] : List Nat).length < 65536 ∧
    (((CalculatePacketCRCChecksum 1 7 0 0 [1, 2] 0 3).status =
        kCalculateCRCChecksumBufferTooSmall ↔ ([1, 2] : List Nat).length < 0 + 3) ∧
      (0 + 3 ≤ ([1, 2] : List Nat).length →
        (CalculatePacketCRCChecksum 1 7 0 0 [1, 2] 0 3).status = kCRCChecksumCalculated ∧
        (CalculatePacketCRCChecksum 1 7 0 0 [1, 2] 0 3).value =
          crcFeed 1 7 0 ((List.range 3).map fun i => ([1, 2] : List Nat).getD (0 + i) 0) ^^^
            0)) :=
  ⟨by decide, c4_calculate_guard 1 7 0 0 [1, 2] 0 3 (by decide)⟩

/-! ## Claim theorems: transfer engine -/

theorem getD_set_zero_zero (l : List Nat) : (l.set 0 0).getD 0 0 = 0 := by
  cases l with
  | nil => rfl
  | cons a t => rfl

/-- Claim C5 (corrected), amended part: when `offset + len` does not
overflow the uint16_t arithmetic (`offset + len ≤ 65534`), WriteData
fails with kWritePayloadTooSmallError returning 0 exactly when
`offset + len` exceeds the maximum transmitted payload size; on success
it writes the object bytes at buffer indices offset+1..offset+len,
sets the tracker to `max tracker (offset + len)` and returns
`offset + len`.  (With `offset + len ≥ 65535` the uint16_t wrap defeats
the size check, see the counterexample.) -/
theorem c5_write_data_spec (kMaxTx : Nat) (buffer : List Nat) (tracker : Nat)
    (object : List Nat) (start : Nat) (hmax : kMaxTx ≤ 254)
    (hlen : kMaxTx + 2 ≤ buffer.length) (hno : start + object.length ≤ 65534) :
    (kMaxTx < start + object.length →
      WriteData kMaxTx buffer tracker object start =
        ⟨buffer, tracker, 0, kWritePayloadTooSmallError⟩) ∧
    (start + object.length ≤ kMaxTx →
      (WriteData kMaxTx buffer tracker object start).status = kBytesWrittenToBuffer ∧
      (WriteData kMaxTx buffer tracker object start).ret = start + object.length ∧
      (WriteData kMaxTx buffer tracker object start).tracker =
        max tracker (start + object.length) ∧
      ∀ i, i < object.length →
        (WriteData kMaxTx buffer tracker object start).buffer.getD (start + 1 + i) 0 =
          object.getD i 0) := by
  have h1 : (start + 1) % 65536 = start + 1 := Nat.mod_eq_of_lt (by omega)
  have h2 : (start + 1 + object.length) % 65536 = start + 1 + object.length :=
    Nat.mod_eq_of_lt (by omega)
  simp only [WriteData, h1, h2]
  constructor
  · intro hgt
    rw [if_pos (by omega)]
  · intro hle2
    rw [if_neg (by omega)]
    have h3 : (start + 1 + object.length + 65535) % 65536 = start + object.length := by omega
    refine ⟨rfl, h3, ?_, ?_⟩
    · show max tracker ((start + 1 + object.length + 65535) % 65536) =
        max tracker (start + object.length)
      rw [h3]
    · intro i hi
      show (writeBytes buffer (start + 1) object).getD (start + 1 + i) 0 = object.getD i 0
      exact writeBytes_getD_in object buffer (start + 1) i hi (by omega)

/-- Claim C5 counterexample: with maximum payload size 2, writing a
one-byte object at offset 65535 makes `local_start_index` wrap to 0;
the method reports kBytesWrittenToBuffer (not
kWritePayloadTooSmallError), returns 0, and overwrites the overhead
byte at buffer index 0, even though offset + len = 65536 exceeds the
maximum payload size.  The claimed equivalence over every offset is
therefore false. -/
theorem c5_write_counterexample :
    (WriteData 2 [0, 0, 0, 0, 0] 0 [42] 65535).status = kBytesWrittenToBuffer ∧
    (WriteData 2 [0, 0, 0, 0, 0] 0 [42] 65535).ret = 0 ∧
    (WriteData 2 [0, 0, 0, 0, 0] 0 [42] 65535).buffer = [42, 0, 0, 0, 0] ∧
    2 < 65535 + 1 := by decide

/-- Witness for the amended claim C5 theorem: maximum payload size 2,
buffer of 5 bytes, object bytes [9, 8] written at offset 0. -/
theorem c5_write_data_witness :
    (2 ≤ 254 ∧ 2 + 2 ≤ ([0, 0, 0, 0, 0] : List Nat).length ∧
      0 + ([9, 8] : List Nat).length ≤ 65534) ∧
    ((2 < 0 + ([9, 8] : List Nat).length →
      WriteData 2 [0, 0, 0, 0, 0] 0 [9, 8] 0 =
        ⟨[0, 0, 0, 0, 0], 0, 0, kWritePayloadTooSmallError⟩) ∧
    (0 + ([9, 8] : List Nat).length ≤ 2 →
      (WriteData 2 [0, 0, 0, 0, 0] 0 [9, 8] 0).status = kBytesWrittenToBuffer ∧
      (WriteData 2 [0, 0, 0, 0, 0] 0 [9, 8] 0).ret = 0 + ([9, 8] : List Nat).length ∧
      (WriteData 2 [0, 0, 0, 0, 0] 0 [9, 8] 0).tracker =
        max 0 (0 + ([9, 8] : List Nat).length) ∧
      ∀ i, i < ([9, 8] : List Nat).length →
        (WriteData 2 [0, 0, 0, 0, 0] 0 [9, 8] 0).buffer.getD (0 + 1 + i) 0 =
          ([9, 8] : List Nat).getD i 0)) :=
  ⟨⟨by decide, by decide, by decide⟩,
    c5_write_data_spec 2 [0, 0, 0, 0, 0] 0 [9, 8] 0 (by decide) (by decide) (by decide)⟩

/-- Claim C6 (confirmed): every successful SendData call (returning
true) leaves the transmission byte tracker at 0 and the transmission
buffer overhead byte at 0: the success path unconditionally runs
ResetTransmissionBuffer after handing the bytes to the stream. -/
theorem c6_send_resets_transmission (cfg : STPConfig) (st : STPState)
    (h : (SendData cfg st).1 = true) :
    (SendData cfg st).2.txTracker = 0 ∧ (SendData cfg st).2.txBuffer.getD 0 0 = 0 := by
  simp only [SendData] at h ⊢
  by_cases hc : (ConstructPacket cfg st).2 ≠ 0
  · rw [if_pos hc]
    exact ⟨rfl, getD_set_zero_zero _⟩
  · rw [if_neg hc] at h
    simp at h

/-- Witness for the claim C6 theorem: CRC-8 configuration, one payload
byte staged in the transmission buffer; SendData succeeds and leaves
tracker and overhead byte at 0. -/
theorem c6_send_resets_witness :
    (SendData ⟨1, 7, 0, 0, 129, 0, false, 2, 2⟩
      ⟨[], [], [0, 5, 0, 0, 0], [0, 0, 0, 0, 0], 1, 0, 101⟩).1 = true ∧
    ((SendData ⟨1, 7, 0, 0, 129, 0, false, 2, 2⟩
        ⟨[], [], [0, 5, 0, 0, 0], [0, 0, 0, 0, 0], 1, 0, 101⟩).2.txTracker = 0 ∧
    (SendData ⟨1, 7, 0, 0, 129, 0, false, 2, 2⟩
        ⟨[], [], [0, 5, 0, 0, 0], [0, 0, 0, 0, 0], 1, 0, 101⟩).2.txBuffer.getD 0 0 = 0) :=
  ⟨by decide, c6_send_resets_transmission _ _ (by decide)⟩

/-- Claim C7 (confirmed): whenever ReceiveData returns false, the
reception byte tracker is left at 0: it is zeroed on entry by
ResetReceptionBuffer and reassigned only on the fully successful
path. -/
theorem c7_receive_failure_tracker_zero (cfg : STPConfig) (st : STPState)
    (h : (ReceiveData cfg st).1 = false) :
    (ReceiveData cfg st).2.rxTracker = 0 := by
  simp only [ReceiveData] at h ⊢
  split
  · rfl
  · next h1 =>
    split
    · rfl
    · next h2 =>
      rw [if_neg h1, if_neg h2] at h
      simp at h

/-- Witness for the claim C7 theorem: an empty incoming stream makes
ReceiveData fail (no start byte) with the tracker left at 0. -/
theorem c7_receive_failure_witness :
    (ReceiveData ⟨1, 7, 0, 0, 129, 0, false, 2, 2⟩
      ⟨[], [], [0, 0, 0, 0, 0], [0, 0, 0, 0, 0], 0, 9, 101⟩).1 = false ∧
    (ReceiveData ⟨1, 7, 0, 0, 129, 0, false, 2, 2⟩
      ⟨[], [], [0, 0, 0, 0, 0], [0, 0, 0, 0, 0], 0, 9, 101⟩).2.rxTracker = 0 :=
  ⟨by decide, c7_receive_failure_tracker_zero _ _ (by decide)⟩

/-- Claim C9 (corrected), amended part: in the packet-scan loop of
ParsePacket, a received byte equal to delimiter_byte IS treated as the
packet terminator even when it lands at the overhead position (buffer
index 0, the first byte written after the start byte): the scan stops
after storing that single byte. -/
theorem c9_scan_delimiter_at_overhead (delim cap : Nat) (buf rest : List Nat)
    (hcap : 0 < cap) :
    packetLoop delim cap (delim :: rest) buf 0 = ⟨rest, buf.set 0 delim, 1, true⟩ := by
  unfold packetLoop
  rw [if_neg (by omega)]
  show (if delim = delim then
      (⟨rest, buf.set 0 delim, 0 + 1, true⟩ : PacketScanResult)
    else packetLoop delim cap rest (buf.set 0 delim) (0 + 1)) =
    ⟨rest, buf.set 0 delim, 1, true⟩
  rw [if_pos rfl]

/-- Claim C9 counterexample: with start byte 129 and delimiter byte 5,
the stream [129, 5, 9] parses into a one-byte packet: the delimiter
value at the overhead position (reception buffer index 0) terminated
the scan, contradicting the claim that the scan ends only at a
delimiter at or after index 1 (a real packet has at least 3 bytes). -/
theorem c9_scan_counterexample :
    (ParsePacket ⟨1, 7, 0, 0, 129, 5, false, 2, 4⟩ [129, 5, 9]
      [0, 0, 0, 0, 0, 0, 0]).ret = 1 ∧
    (ParsePacket ⟨1, 7, 0, 0, 129, 5, false, 2, 4⟩ [129, 5, 9]
      [0, 0, 0, 0, 0, 0, 0]).status = kPacketParsed ∧
    (ParsePacket ⟨1, 7, 0, 0, 129, 5, false, 2, 4⟩ [129, 5, 9]
      [0, 0, 0, 0, 0, 0, 0]).buffer.getD 0 0 = 5 := by decide

/-- Witness for the amended claim C9 theorem: delimiter 5 as the first
scanned byte with capacity 6. -/
theorem c9_scan_witness :
    0 < 6 ∧ packetLoop 5 6 (5 :: [9]) [0, 0, 0] 0 = ⟨[9], ([0, 0, 0] : List Nat).set 0 5, 1, true⟩ :=
  ⟨by decide, c9_scan_delimiter_at_overhead 5 6 [0, 0, 0] [9] (by decide)⟩
